import Mathlib

/-
Verification of `src/codeclip.js`: a size-bounded, filter-aware, binary-detecting
recursive file concatenator.  The JavaScript source is shallowly embedded below:
pure helpers (`isBinaryFile`, `path.extname`, size computations) become Lean
functions on `List Nat` byte buffers and `String`s; the stateful tree walk
(`processDirectory` with its process-wide mutable `currentSize` / `limitReached`)
becomes explicit state passing of an `St` record; the filesystem becomes an
inductive `Entry` tree; the output string is modelled as a list of emitted
chunks (`Item`) together with a `renderItems` function producing the exact
string the program builds.
-/

/-! ## Byte-size helpers

JavaScript measures strings two ways in this program:
`Buffer.byteLength(s, 'utf8')` (UTF-8 bytes) and `s.length` (UTF-16 code
units).  Both are modelled as sums over the string's characters.  -/

/-- UTF-8 byte width of one character (Lean `Char` is a Unicode scalar value,
so the usual 1/2/3/4-byte ranges apply; this matches `Buffer.byteLength` for
any JS string that is well-formed Unicode). -/
def charUtf8Size (c : Char) : Nat :=
  if c.toNat < 128 then 1
  else if c.toNat < 2048 then 2
  else if c.toNat < 65536 then 3
  else 4

/-- Model of `Buffer.byteLength(s, 'utf8')`. -/
def utf8Len (s : String) : Nat := (s.data.map charUtf8Size).sum

/-- Model of the JavaScript `s.length` (UTF-16 code units: scalar values up to
U+FFFF count 1, characters beyond the BMP count as a surrogate pair, 2). -/
def jsLength (s : String) : Nat :=
  (s.data.map (fun c => if c.toNat < 65536 then 1 else 2)).sum

/-- Model of `s.startsWith(p)` (`src/codeclip.js:107`): code-unit prefix test,
which for the arguments used by the program coincides with character-list
prefix. -/
def jsStartsWith (s p : String) : Bool := p.data.isPrefixOf s.data

/-- Model of `s.toLowerCase()` (`src/codeclip.js:51,192`): ASCII case folding,
which agrees with JS `toLowerCase` on all strings the program compares
(extensions and the y/n answer). -/
def lowerStr (s : String) : String := String.mk (s.data.map Char.toLower)

/-- The 5MB output budget, `MAX_SIZE` (`src/codeclip.js:8`). -/
def MAX_SIZE : Nat := 5 * 1024 * 1024

/-! ## Binary detection (`isBinaryFile`, `src/codeclip.js:40-65`) -/

/-- The extension denylist (`src/codeclip.js:42-49`). -/
def binaryExts : List String :=
  [".exe", ".dll", ".so", ".dylib", ".class", ".jar", ".pyc", ".o", ".obj",
   ".jpg", ".jpeg", ".png", ".gif", ".bmp", ".ico", ".webp", ".psd", ".tiff",
   ".mp3", ".wav", ".flac", ".aac", ".ogg", ".mp4", ".avi", ".mov", ".mkv", ".flv",
   ".pdf", ".doc", ".docx", ".xls", ".xlsx", ".ppt", ".pptx", ".odt",
   ".zip", ".rar", ".7z", ".tar", ".gz", ".bz2", ".xz", ".tgz",
   ".db", ".sqlite", ".mdb"]

/-- Characters of the last path component (the part after the final `/`),
as used by Node's `path.extname`. -/
def basenameChars (p : String) : List Char :=
  (p.data.reverse.takeWhile (fun c => !(c == '/'))).reverse

/-- Model of Node `path.extname(p)`: the substring of the basename from its
last `.`; empty when there is no dot or when the only dot is the leading
character (so `.gitignore` has extension `""`, `a.tar.gz` has `".gz"`). -/
def extname (p : String) : String :=
  let b := basenameChars p
  match b.reverse.findIdx? (fun c => c == '.') with
  | none => ""
  | some j =>
    let i := b.length - 1 - j
    if i = 0 then "" else String.mk (b.drop i)

/-- Model of `isBinaryFile(buffer, filePath)` (`src/codeclip.js:40-65`).
A buffer is a list of byte values.  The three checks run in source order:
extension denylist, null byte, control-character ratio over the first 8000
bytes.  The JS ratio test `nonPrintable / sampleSize > 0.3` is a float
comparison; for every reachable pair (`nonPrintable ≤ sampleSize ≤ 8000`)
it is equivalent to the exact test `10 * nonPrintable > 3 * sampleSize`:
rationals with denominator ≤ 8000 other than 3/10 itself differ from 0.3 by
at least 1.25e-5, far above double rounding error, and 3/10 compares equal
to the 0.3 literal; the empty-sample case `0/0 = NaN > 0.3` is false, as is
`10 * 0 > 3 * 0`. -/
def isBinaryFile (buffer : List Nat) (filePath : String) : Bool :=
  let ext := lowerStr (extname filePath)
  if binaryExts.contains ext then true
  else if buffer.contains 0 then true
  else
    let sample := buffer.take 8000
    let nonPrintable := (sample.filter (fun b =>
      decide (b < 32) && !(b == 9) && !(b == 10) && !(b == 13))).length
    decide (10 * nonPrintable > 3 * sample.length)

/-! ## Repository locator (`isGitRepo`, `src/codeclip.js:25-37`)

An absolute directory path is modelled as its list of components below the
filesystem root (`[]` is the root, `path.dirname` is `List.dropLast`).  The
combined `fs.existsSync`/`fs.statSync` probe for `<dir>/.git` is a function
into a three-valued result: `marker` (exists and is a directory), `noMarker`
(absent or not a directory), `error` (the stat threw — caught and treated
like `noMarker` by the `try {} catch {}`). -/

inductive Probe where
  | marker
  | noMarker
  | error
deriving DecidableEq

/-- Model of `isGitRepo(dir)` (`src/codeclip.js:25-37`): walk upward while the
current directory is not the filesystem root; return the first directory whose
`.git` probe succeeds, else `none`.  The root itself is never probed (the
`while` guard `current !== path.parse(current).root` stops first). -/
def isGitRepo (probe : List String → Probe) (p : List String) : Option (List String) :=
  match p with
  | [] => none
  | a :: as =>
    match probe (a :: as) with
    | Probe.marker => some (a :: as)
    | _ => isGitRepo probe ((a :: as).dropLast)
termination_by p.length
decreasing_by
  simp [List.length_dropLast]

/-! ## Output chunks and the traversal state -/

/-- One chunk appended to the output string by `processDirectory`:
a folder header (`src/codeclip.js:133`), a file header plus its text content
(`src/codeclip.js:176`), or a file header plus the binary marker
(`src/codeclip.js:161`). -/
inductive Item where
  | folderHeader (rel : String)
  | fileChunk (rel : String) (content : String)
  | binaryNote (rel : String)
deriving DecidableEq

/-- Relative path (from the invocation directory) an item belongs to. -/
def itemRel : Item → String
  | .folderHeader r => r
  | .fileChunk r _ => r
  | .binaryNote r => r

/-- The folder header text (`src/codeclip.js:125`). -/
def folderHeaderStr (rel : String) : String := "\n--- Folder: " ++ rel ++ " ---\n"

/-- The file header text (`src/codeclip.js:137`). -/
def fileHeaderStr (rel : String) : String := "\n--- File: " ++ rel ++ " ---\n"

/-- The binary-file note (`src/codeclip.js:155`): header plus marker line. -/
def binaryNoteStr (rel : String) : String := fileHeaderStr rel ++ "[BINARY FILE SKIPPED]\n"

/-- The string a single item contributes to the output. -/
def renderItem : Item → String
  | .folderHeader r => folderHeaderStr r
  | .fileChunk r c => fileHeaderStr r ++ c
  | .binaryNote r => binaryNoteStr r

/-- The output string built from a list of emitted items (the JS `output`
variable is exactly the concatenation of the chunks it was built from). -/
def renderItems (l : List Item) : String :=
  l.foldr (fun it acc => renderItem it ++ acc) ""

/-- The process-wide mutable accumulator of `src/codeclip.js:9-10`:
`currentSize` and `limitReached`, threaded explicitly. -/
structure St where
  currentSize : Nat
  limitReached : Bool
deriving DecidableEq

/-- A directory entry as seen by the walker.  A `file` carries its raw bytes
(as read by `fs.readFileSync`), the string `buffer.toString('utf8')` decodes
to, and whether the read succeeds (`readable = false` models the `catch` at
`src/codeclip.js:149`).  A `dir` carries whether `fs.readdirSync` succeeds
(`listable = false` models the `catch` at `src/codeclip.js:96`).  `badStat`
models an entry whose `fs.lstatSync` throws (`src/codeclip.js:112`);
`symlink` a symbolic link (`src/codeclip.js:117`). -/
inductive Entry where
  | file (name : String) (bytes : List Nat) (content : String) (readable : Bool)
  | dir (name : String) (listable : Bool) (entries : List Entry)
  | badStat (name : String)
  | symlink (name : String)

/-- Name of an entry. -/
def entryName : Entry → String
  | .file n _ _ _ => n
  | .dir n _ _ => n
  | .badStat n => n
  | .symlink n => n

/-- Model of `path.relative(process.cwd(), path.join(dirPath, file))` for a
child of the directory whose own relative path is `rel` (`""` for the
invocation directory itself). -/
def childRel (rel name : String) : String :=
  if rel = "" then name else rel ++ "/" ++ name

/-! ## The tree walker (`processDirectory`, `src/codeclip.js:90-182`)

`processEntry` is the body of the `for` loop for one entry (everything after
the top-of-loop `limitReached` check); `processEntries` is the loop itself.
The mid-loop `return output` statements on setting `limitReached` are
equivalent to falling through to the next iteration's top-of-loop check, which
is how the loop is rendered here.  The JS truthiness test
`if (folderOutput)` on a string is rendered as `renderItems sub.1 = ""`
(the same string compared against empty).  `isBinaryFile` receives the
relative path where the JS passes the absolute one; `path.extname` only looks
at the basename, which the two share. -/

mutual

/-- One iteration of the entry loop of `processDirectory`
(`src/codeclip.js:103-178`), for the entry `e` of the directory whose
relative path is `rel`, under ignore predicate `ig` and accumulator state
`s`.  Returns the chunks this entry appends and the updated state. -/
def processEntry (e : Entry) (rel : String) (ig : String → Bool) (s : St) :
    List Item × St :=
  let name := entryName e
  if jsStartsWith name "." && name != ".gitignore" then ([], s)
  else
    match e with
    | .badStat _ => ([], s)
    | .symlink _ => ([], s)
    | .file _ bytes content readable =>
      let r := childRel rel name
      if ig r then ([], s)
      else
        let headerSize := utf8Len (fileHeaderStr r)
        if s.currentSize + headerSize > MAX_SIZE then ([], ⟨s.currentSize, true⟩)
        else if !readable then ([], s)
        else if isBinaryFile bytes r then
          let noteSize := utf8Len (binaryNoteStr r)
          if s.currentSize + noteSize > MAX_SIZE then ([], ⟨s.currentSize, true⟩)
          else ([.binaryNote r], ⟨s.currentSize + noteSize, s.limitReached⟩)
        else
          let contentSize := utf8Len content
          let totalSize := headerSize + contentSize
          if s.currentSize + totalSize > MAX_SIZE then ([], ⟨s.currentSize, true⟩)
          else ([.fileChunk r content], ⟨s.currentSize + totalSize, s.limitReached⟩)
    | .dir _ listable entries =>
      let r := childRel rel name
      if ig r then ([], s)
      else
        let h := folderHeaderStr r
        if s.currentSize + jsLength h > MAX_SIZE then ([], ⟨s.currentSize, true⟩)
        else
          let sub := if listable then processEntries entries r ig s else ([], s)
          if renderItems sub.1 = "" then ([], sub.2)
          else (.folderHeader r :: sub.1,
                ⟨sub.2.currentSize + utf8Len h, sub.2.limitReached⟩)

/-- The entry loop of `processDirectory` (`src/codeclip.js:100-181`) over the
listed entries of the directory at relative path `rel`. -/
def processEntries (es : List Entry) (rel : String) (ig : String → Bool) (s : St) :
    List Item × St :=
  match es with
  | [] => ([], s)
  | e :: rest =>
    if s.limitReached then ([], s)
    else
      let p := processEntry e rel ig s
      let q := processEntries rest rel ig p.2
      (p.1 ++ q.1, q.2)

end

/-- Modelled from the spec: the third-party gitignore matcher (the `ignore`
npm package, a dependency whose code is not part of this repository) as
configured by a root-level ignore-file containing the single pattern
`build/`.  Per the spec's ignore-file semantics, the pattern excludes every
path under `build/` at any depth; a directory pattern matches the paths
strictly inside the directory (paths are passed without a trailing slash, so
the bare path `build` itself, denoting the directory entry, is not matched
and the walker descends into it, where every child is matched). -/
def buildIgnore (p : String) : Bool := jsStartsWith p "build/"

/-! ## The entry point (`main`, `src/codeclip.js:185-219`) -/

/-- The root header line (`src/codeclip.js:202`). -/
def rootHeaderStr (name : String) : String :=
  "--- Root Directory: " ++ name ++ " ---\n"

/-- The final text `main` assembles (`src/codeclip.js:202-205`) together with
the final accumulator state: the root header (whose byte length seeds
`currentSize`) followed by the walk of the invocation directory. -/
def mainOutput (rootName : String) (tree : List Entry) (ig : String → Bool) :
    String × St :=
  let rootHeader := rootHeaderStr rootName
  let s0 : St := ⟨utf8Len rootHeader, false⟩
  let res := processEntries tree "" ig s0
  (rootHeader ++ renderItems res.1, res.2)

/-- Observable outcome of `main`: either the cancellation path
(`src/codeclip.js:192-196`: print `Operation cancelled.`, no traversal, no
clipboard write, clean return) or delivery of the final text to the clipboard
sink together with the truncation flag that selects the status message
(`src/codeclip.js:208-213`). -/
inductive RunResult where
  | cancelled
  | delivered (text : String) (truncated : Bool)
deriving DecidableEq

/-- Model of `main` (`src/codeclip.js:185-219`).  `gitFound` is whether
`isGitRepo` located a repository; `answer` is the operator's reply to the
confirmation prompt (only consulted when no repository was found,
`src/codeclip.js:190-197`); `tree` is the listing of the invocation
directory and `ig` the loaded ignore rule set. -/
def runMain (gitFound : Bool) (answer : String) (rootName : String)
    (tree : List Entry) (ig : String → Bool) : RunResult :=
  if !gitFound && lowerStr answer != "y" then RunResult.cancelled
  else
    let res := mainOutput rootName tree ig
    RunResult.delivered res.1 res.2.limitReached

/-! ## The walk invariant: size accounting, cap overshoot bound, ignored paths

The three facts are proved together by one induction on the tree size.
`chainOv`/`listOv` bound the folder-header overhead of a single nested
directory chain: the cap can only be overshot by headers appended while the
recursion unwinds, and those lie on one root-to-leaf chain. -/

mutual

/-- Folder-header overhead of the directory chain rooted at one entry. -/
def chainOv (e : Entry) (rel : String) : Nat :=
  match e with
  | .dir name _ entries =>
    let r := childRel rel name
    utf8Len (folderHeaderStr r) + listOv entries r
  | _ => 0

/-- Maximal folder-header overhead over the chains rooted at the entries. -/
def listOv (es : List Entry) (rel : String) : Nat :=
  match es with
  | [] => 0
  | e :: rest => max (chainOv e rel) (listOv rest rel)

end

/-- Invariant of one loop iteration: exact size accounting, bounded overshoot
of the cap, and every emitted item's path passed the ignore check. -/
def entryInv (e : Entry) (rel : String) (ig : String → Bool) (s : St) : Prop :=
  ((processEntry e rel ig s).2).currentSize =
      s.currentSize + utf8Len (renderItems (processEntry e rel ig s).1) ∧
  ((processEntry e rel ig s).2).currentSize ≤
      max s.currentSize (MAX_SIZE + chainOv e rel) ∧
  ∀ it ∈ (processEntry e rel ig s).1, ig (itemRel it) = false

/-- Invariant of the whole entry loop. -/
def entriesInv (es : List Entry) (rel : String) (ig : String → Bool) (s : St) : Prop :=
  ((processEntries es rel ig s).2).currentSize =
      s.currentSize + utf8Len (renderItems (processEntries es rel ig s).1) ∧
  ((processEntries es rel ig s).2).currentSize ≤
      max s.currentSize (MAX_SIZE + listOv es rel) ∧
  ∀ it ∈ (processEntries es rel ig s).1, ig (itemRel it) = false

/-- The locator's actual behaviour, as a specification: `q` is the nearest
ancestor of `p` (start inclusive, filesystem root exclusive) whose probe
reports the marker; every strictly nearer ancestor reports none. -/
def nearestMarkerSpec (probe : List String → Probe) (p q : List String) : Prop :=
  q ≠ [] ∧ q <+: p ∧ probe q = Probe.marker ∧
    ∀ r : List String, r <+: p → q.length < r.length → probe r ≠ Probe.marker

/-- No nonempty ancestor (start inclusive, root exclusive) has the marker. -/
def noMarkerSpec (probe : List String → Probe) (p : List String) : Prop :=
  ∀ r : List String, r <+: p → r ≠ [] → probe r ≠ Probe.marker

/-! ## Concrete scenarios used by witnesses and counterexamples -/

/-- Ignore predicate that excludes nothing, for concrete scenarios. -/
def igNone : String → Bool := fun _ => false

/-- Concrete directory listing for the C1 counterexample: a small text file
followed by a text file whose block no longer fits. -/
def c1Inner : List Entry :=
  [Entry.file "f1" [104] "h" true,
   Entry.file "f2" [48, 49, 50, 51, 52, 53, 54, 55, 56, 57] "0123456789" true]

/-- Probe for the C2 counterexample: both `/a` and `/a/b` contain the
version-control marker. -/
def c2Probe (p : List String) : Probe :=
  if p = ["a"] ∨ p = ["a", "b"] then Probe.marker else Probe.noMarker

/-- Concrete tree for the C3 counterexample: `a/b/f1` fills the budget to
one byte below the cap, `a/b/f2` trips the flag, and the two folder headers
of `a/b` and `a` are then appended while unwinding. -/
def c3Tree : List Entry :=
  [Entry.dir "a" true [Entry.dir "b" true
    [Entry.file "f1" [120] "x" true,
     Entry.file "f2" [48, 49, 50, 51, 52, 53, 54, 55, 56, 57] "0123456789" true]]]

/-- Concrete tree for the C6 witness: one ordinary file next to a `build`
directory with a file inside. -/
def c6Tree : List Entry :=
  [Entry.file "a.txt" [104, 105] "hi" true,
   Entry.dir "build" true [Entry.file "x" [104] "h" true]]

/-! ## Helper lemmas on lengths and rendering -/

theorem utf8Len_append (a b : String) : utf8Len (a ++ b) = utf8Len a + utf8Len b := by
  simp [utf8Len, String.data_append]

theorem jsLength_append (a b : String) : jsLength (a ++ b) = jsLength a + jsLength b := by
  simp [jsLength, String.data_append]

theorem utf8Len_folderHeaderStr (r : String) :
    utf8Len (folderHeaderStr r) = 13 + utf8Len r + 5 := by
  have h1 : utf8Len "\n--- Folder: " = 13 := by decide
  have h2 : utf8Len " ---\n" = 5 := by decide
  simp [folderHeaderStr, utf8Len_append, h1, h2]

theorem utf8Len_fileHeaderStr (r : String) :
    utf8Len (fileHeaderStr r) = 11 + utf8Len r + 5 := by
  have h1 : utf8Len "\n--- File: " = 11 := by decide
  have h2 : utf8Len " ---\n" = 5 := by decide
  simp [fileHeaderStr, utf8Len_append, h1, h2]

theorem jsLength_folderHeaderStr (r : String) :
    jsLength (folderHeaderStr r) = 13 + jsLength r + 5 := by
  have h1 : jsLength "\n--- Folder: " = 13 := by decide
  have h2 : jsLength " ---\n" = 5 := by decide
  simp [folderHeaderStr, jsLength_append, h1, h2]

theorem renderItems_cons (it : Item) (l : List Item) :
    renderItems (it :: l) = renderItem it ++ renderItems l := rfl

theorem renderItems_append (a b : List Item) :
    renderItems (a ++ b) = renderItems a ++ renderItems b := by
  induction a with
  | nil =>
    have : ∀ s : String, "" ++ s = s := fun s => by cases s; simp [String.append]
    simp [renderItems, this]
  | cons it l ih =>
    simp [renderItems_cons, ih, String.append_assoc]

theorem utf8Len_renderItem_pos (it : Item) : 0 < utf8Len (renderItem it) := by
  cases it <;>
    simp [renderItem, binaryNoteStr, utf8Len_append, utf8Len_folderHeaderStr,
      utf8Len_fileHeaderStr]

theorem renderItems_eq_empty_iff (l : List Item) : renderItems l = "" ↔ l = [] := by
  cases l with
  | nil => simp [renderItems]
  | cons it l =>
    simp only [renderItems_cons]
    constructor
    · intro h
      have hlen := congrArg utf8Len h
      rw [utf8Len_append] at hlen
      have hpos := utf8Len_renderItem_pos it
      have : utf8Len "" = 0 := by decide
      omega
    · intro h
      exact absurd h (List.cons_ne_nil it l)

theorem utf8Len_empty_str : utf8Len "" = 0 := by decide

theorem invGoalEmpty (ig : String → Bool) (t s : St) (k : Nat)
    (h1 : t.currentSize = s.currentSize) :
    t.currentSize = s.currentSize + utf8Len (renderItems ([] : List Item)) ∧
    t.currentSize ≤ max s.currentSize k ∧
    (∀ it ∈ ([] : List Item), ig (itemRel it) = false) := by
  refine ⟨?_, ?_, ?_⟩
  · simp [renderItems, utf8Len_empty_str, h1]
  · rw [h1]; exact le_max_left _ _
  · intro it hit
    simp at hit

theorem invGoalSingle (ig : String → Bool) (s : St) (it : Item) (ns k : Nat)
    (hsize : ns = s.currentSize + utf8Len (renderItem it))
    (hbound : ns ≤ MAX_SIZE)
    (hrel : ig (itemRel it) = false) :
    ns = s.currentSize + utf8Len (renderItems [it]) ∧
    ns ≤ max s.currentSize (MAX_SIZE + k) ∧
    (∀ x ∈ [it], ig (itemRel x) = false) := by
  refine ⟨?_, ?_, ?_⟩
  · simpa [renderItems_cons, renderItems, utf8Len_append, utf8Len_empty_str] using hsize
  · exact le_trans (hbound.trans (Nat.le_add_right _ _)) (le_max_right _ _)
  · intro x hx
    simp at hx
    subst hx
    exact hrel

theorem entry_sizeOf_pos (e : Entry) : 0 < sizeOf e := by
  cases e <;> simp

/-- The bundled invariant, by strong induction on the tree size. -/
theorem walkInvAux : ∀ n : Nat,
    (∀ (e : Entry) (rel : String) (ig : String → Bool) (s : St),
        sizeOf e ≤ n → entryInv e rel ig s) ∧
    (∀ (es : List Entry) (rel : String) (ig : String → Bool) (s : St),
        sizeOf es ≤ n → entriesInv es rel ig s) := by
  intro n
  induction n with
  | zero =>
    constructor
    · intro e rel ig s hsz
      exact absurd hsz (by have := entry_sizeOf_pos e; omega)
    · intro es rel ig s hsz
      cases es with
      | nil => simp at hsz
      | cons e rest => simp at hsz
  | succ n ihn =>
    constructor
    · intro e rel ig s hsz
      cases e with
      | badStat name =>
        unfold entryInv
        simp only [processEntry, entryName]
        split
        · exact invGoalEmpty ig s s _ rfl
        · exact invGoalEmpty ig s s _ rfl
      | symlink name =>
        unfold entryInv
        simp only [processEntry, entryName]
        split
        · exact invGoalEmpty ig s s _ rfl
        · exact invGoalEmpty ig s s _ rfl
      | file name bytes content readable =>
        unfold entryInv
        simp only [processEntry, entryName]
        split
        · exact invGoalEmpty ig s s _ rfl
        · split
          · exact invGoalEmpty ig s s _ rfl
          · next hig =>
            split
            · exact invGoalEmpty ig ⟨s.currentSize, true⟩ s _ rfl
            · next hhdr =>
              split
              · exact invGoalEmpty ig s s _ rfl
              · split
                · split
                  · exact invGoalEmpty ig ⟨s.currentSize, true⟩ s _ rfl
                  · next hfits =>
                    refine invGoalSingle ig s _ _ _ rfl (by simp; omega) ?_
                    simpa [itemRel] using hig
                · split
                  · exact invGoalEmpty ig ⟨s.currentSize, true⟩ s _ rfl
                  · next hfits =>
                    refine invGoalSingle ig s _ _ _ ?_ (by simp; omega) ?_
                    · simp [renderItem, utf8Len_append]
                    · simpa [itemRel] using hig
      | dir name listable entries =>
        have hrec : entriesInv entries (childRel rel name) ig s := by
          apply (ihn).2
          have hspec : sizeOf (Entry.dir name listable entries) =
              1 + sizeOf name + sizeOf listable + sizeOf entries := by simp
          omega
        unfold entryInv
        simp only [processEntry, entryName]
        split
        · exact invGoalEmpty ig s s _ rfl
        · split
          · exact invGoalEmpty ig s s _ rfl
          · next hig =>
            split
            · exact invGoalEmpty ig ⟨s.currentSize, true⟩ s _ rfl
            · next hhdr =>
              split
              · next hlist =>
                obtain ⟨hacc, hbound, hrels⟩ := hrec
                split
                · next hempty =>
                  have hz := congrArg utf8Len hempty
                  rw [utf8Len_empty_str] at hz
                  refine ⟨?_, ?_, ?_⟩
                  · simp [renderItems, utf8Len_empty_str]; omega
                  · simp only [chainOv, entryName]
                    have hfh : jsLength (folderHeaderStr (childRel rel name)) =
                        13 + jsLength (childRel rel name) + 5 := jsLength_folderHeaderStr _
                    omega
                  · intro it hit
                    simp at hit
                · next hne =>
                  refine ⟨?_, ?_, ?_⟩
                  · simp [renderItems_cons, utf8Len_append, renderItem]
                    omega
                  · simp only [chainOv, entryName]
                    have hfh : jsLength (folderHeaderStr (childRel rel name)) =
                        13 + jsLength (childRel rel name) + 5 := jsLength_folderHeaderStr _
                    simp
                    omega
                  · intro it hit
                    simp only [List.mem_cons] at hit
                    rcases hit with h | h
                    · subst h
                      simpa [itemRel] using hig
                    · exact hrels it h
              · next hlist =>
                split
                · next hempty =>
                  exact invGoalEmpty ig s s _ rfl
                · next hne =>
                  exact absurd (by simp [renderItems]) hne
    · intro es rel ig s hsz
      cases es with
      | nil =>
        unfold entriesInv
        simp only [processEntries]
        exact invGoalEmpty ig s s _ rfl
      | cons e rest =>
        have hszc : sizeOf (e :: rest) = 1 + sizeOf e + sizeOf rest := by simp
        have ihE := (ihn).1 e rel ig s (by omega)
        unfold entriesInv
        simp only [processEntries]
        split
        · exact invGoalEmpty ig s s _ rfl
        · next hflag =>
          obtain ⟨haccP, hboundP, hrelsP⟩ := ihE
          have ihEs := (ihn).2 rest rel ig (processEntry e rel ig s).2 (by omega)
          obtain ⟨haccQ, hboundQ, hrelsQ⟩ := ihEs
          refine ⟨?_, ?_, ?_⟩
          · simp only [renderItems_append, utf8Len_append]
            omega
          · simp only [listOv]
            omega
          · intro it hit
            simp only [List.mem_append] at hit
            rcases hit with h | h
            · exact hrelsP it h
            · exact hrelsQ it h

/-- The invariant, entry-loop form. -/
theorem walkInv (es : List Entry) (rel : String) (ig : String → Bool) (s : St) :
    entriesInv es rel ig s :=
  (walkInvAux (sizeOf es)).2 es rel ig s le_rfl

/-- Exact size accounting: after the loop, `currentSize` has grown by exactly
the UTF-8 byte length of the emitted output. -/
theorem walkAccounting (es : List Entry) (rel : String) (ig : String → Bool) (s : St) :
    ((processEntries es rel ig s).2).currentSize =
      s.currentSize + utf8Len (renderItems (processEntries es rel ig s).1) :=
  (walkInv es rel ig s).1

/-- Cap overshoot bound: `currentSize` ends below the cap plus the
folder-header overhead of one nested chain (or stays at its initial value). -/
theorem walkBound (es : List Entry) (rel : String) (ig : String → Bool) (s : St) :
    ((processEntries es rel ig s).2).currentSize ≤
      max s.currentSize (MAX_SIZE + listOv es rel) :=
  (walkInv es rel ig s).2.1

/-- Every emitted item's relative path passed the ignore check. -/
theorem walkEmittedAllowed (es : List Entry) (rel : String) (ig : String → Bool) (s : St) :
    ∀ it ∈ (processEntries es rel ig s).1, ig (itemRel it) = false :=
  (walkInv es rel ig s).2.2

/-- Once the flag is set, the entry loop appends nothing and leaves the
state untouched (the top-of-loop check of `src/codeclip.js:101`). -/
theorem processEntries_flagged (es : List Entry) (rel : String) (ig : String → Bool) (n : Nat) :
    processEntries es rel ig ⟨n, true⟩ = ([], ⟨n, true⟩) := by
  cases es with
  | nil => rfl
  | cons e rest => simp [processEntries]

/-! ## Characterizing the repository locator -/

theorem prefix_of_dropLast {q p : List String} (hp : p ≠ []) (h : q <+: p.dropLast) :
    q <+: p := by
  obtain ⟨t, ht⟩ := h
  refine ⟨t ++ [p.getLast hp], ?_⟩
  rw [← List.append_assoc, ht, List.dropLast_append_getLast]

theorem dropLast_keeps_proper {r p : List String} (h : r <+: p) (hne : r ≠ p) :
    r <+: p.dropLast := by
  obtain ⟨t, rfl⟩ := h
  cases t with
  | nil => simp at hne
  | cons x xs =>
    rw [List.dropLast_append_of_ne_nil r (List.cons_ne_nil x xs)]
    exact ⟨(x :: xs).dropLast, rfl⟩

theorem isGitRepo_nil_char (probe : List String → Probe) (q : List String) :
    isGitRepo probe [] = some q ↔ nearestMarkerSpec probe [] q := by
  constructor
  · intro h
    simp [isGitRepo] at h
  · rintro ⟨hq, hpre, -, -⟩
    obtain ⟨t, ht⟩ := hpre
    exact absurd (List.append_eq_nil.mp ht).1 hq

theorem isGitRepo_marker_char (probe : List String → Probe) (a : String)
    (as q : List String) (hpr : probe (a :: as) = Probe.marker) :
    isGitRepo probe (a :: as) = some q ↔ nearestMarkerSpec probe (a :: as) q := by
  have hred : isGitRepo probe (a :: as) = some (a :: as) := by
    simp [isGitRepo, hpr]
  rw [hred]
  constructor
  · intro h
    have hq : q = a :: as := by simpa using h.symm
    subst hq
    refine ⟨List.cons_ne_nil a as, ⟨[], List.append_nil _⟩, hpr, ?_⟩
    intro r hr hlen
    have hle := hr.length_le
    omega
  · rintro ⟨hq, hpre, hqm, hmax⟩
    by_cases heq : q = a :: as
    · subst heq; rfl
    · exfalso
      have hlt : q.length < (a :: as).length :=
        lt_of_le_of_ne hpre.length_le fun hl => heq (hpre.eq_of_length hl)
      exact hmax (a :: as) ⟨[], List.append_nil _⟩ hlt hpr

theorem isGitRepo_step_char (probe : List String → Probe) (a : String)
    (as q : List String) (hpr : probe (a :: as) ≠ Probe.marker)
    (ihc : isGitRepo probe (a :: as).dropLast = some q ↔
      nearestMarkerSpec probe (a :: as).dropLast q) :
    isGitRepo probe (a :: as) = some q ↔ nearestMarkerSpec probe (a :: as) q := by
  have hred : isGitRepo probe (a :: as) = isGitRepo probe (a :: as).dropLast := by
    cases hx : probe (a :: as) with
    | marker => exact absurd hx hpr
    | noMarker => simp [isGitRepo, hx]
    | error => simp [isGitRepo, hx]
  rw [hred, ihc]
  constructor
  · rintro ⟨hq, hpre, hqm, hmax⟩
    refine ⟨hq, prefix_of_dropLast (List.cons_ne_nil a as) hpre, hqm, ?_⟩
    intro r hr hlen
    by_cases hrp : r = a :: as
    · subst hrp; exact hpr
    · exact hmax r (dropLast_keeps_proper hr hrp) hlen
  · rintro ⟨hq, hpre, hqm, hmax⟩
    have hqp : q ≠ a :: as := fun h => hpr (h ▸ hqm)
    refine ⟨hq, dropLast_keeps_proper hpre hqp, hqm, ?_⟩
    intro r hr hlen
    exact hmax r (prefix_of_dropLast (List.cons_ne_nil a as) hr) hlen

theorem isGitRepo_char_aux :
    ∀ (n : Nat) (probe : List String → Probe) (p : List String), p.length ≤ n →
      ∀ q : List String,
        isGitRepo probe p = some q ↔ nearestMarkerSpec probe p q := by
  intro n
  induction n with
  | zero =>
    intro probe p hp q
    have hnil : p = [] := List.eq_nil_of_length_eq_zero (Nat.le_zero.mp hp)
    subst hnil
    exact isGitRepo_nil_char probe q
  | succ n ih =>
    intro probe p hp q
    cases p with
    | nil => exact isGitRepo_nil_char probe q
    | cons a as =>
      by_cases hpr : probe (a :: as) = Probe.marker
      · exact isGitRepo_marker_char probe a as q hpr
      · refine isGitRepo_step_char probe a as q hpr (ih probe _ ?_ q)
        simp at hp ⊢
        omega

theorem isGitRepo_none_aux :
    ∀ (n : Nat) (probe : List String → Probe) (p : List String), p.length ≤ n →
      (isGitRepo probe p = none ↔ noMarkerSpec probe p) := by
  intro n
  induction n with
  | zero =>
    intro probe p hp
    have hnil : p = [] := List.eq_nil_of_length_eq_zero (Nat.le_zero.mp hp)
    subst hnil
    constructor
    · intro _ r hr hne
      obtain ⟨t, ht⟩ := hr
      exact absurd (List.append_eq_nil.mp ht).1 hne
    · intro _
      simp [isGitRepo]
  | succ n ih =>
    intro probe p hp
    cases p with
    | nil =>
      constructor
      · intro _ r hr hne
        obtain ⟨t, ht⟩ := hr
        exact absurd (List.append_eq_nil.mp ht).1 hne
      · intro _
        simp [isGitRepo]
    | cons a as =>
      by_cases hpr : probe (a :: as) = Probe.marker
      · have hred : isGitRepo probe (a :: as) = some (a :: as) := by
          simp [isGitRepo, hpr]
        rw [hred]
        constructor
        · intro h
          simp at h
        · intro h
          exact absurd hpr (h (a :: as) ⟨[], List.append_nil _⟩ (List.cons_ne_nil a as))
      · have hred : isGitRepo probe (a :: as) = isGitRepo probe (a :: as).dropLast := by
          cases hx : probe (a :: as) with
          | marker => exact absurd hx hpr
          | noMarker => simp [isGitRepo, hx]
          | error => simp [isGitRepo, hx]
        have hlen : (a :: as).dropLast.length ≤ n := by
          simp at hp ⊢
          omega
        rw [hred, ih probe _ hlen]
        constructor
        · intro h r hr hne
          by_cases hrp : r = a :: as
          · subst hrp; exact hpr
          · exact h r (dropLast_keeps_proper hr hrp) hne
        · intro h r hr hne
          exact h r (prefix_of_dropLast (List.cons_ne_nil a as) hr) hne

/-! ## Claims -/

/-- C1 counterexample: the claim says that once `limitReached` is set no
further bytes are ever appended to any output buffer.  In this run the inner
loop over the entries of folder `d` sets the flag (state
`⟨5242871, true⟩`) while processing `f2`; yet the enclosing call then appends
the 19-byte folder header `\n--- Folder: d ---\n` to its output buffer and
grows `currentSize` to 5242890 — bytes appended after the flag was set
(`src/codeclip.js:131-134` re-checks nothing after the recursion returns). -/
theorem claim_C1_counterexample :
    (processEntries c1Inner "d" igNone ⟨5242850, false⟩).2 = ⟨5242871, true⟩ ∧
    processEntry (Entry.dir "d" true c1Inner) "" igNone ⟨5242850, false⟩ =
      ([Item.folderHeader "d", Item.fileChunk "d/f1" "h"], ⟨5242890, true⟩) ∧
    utf8Len (folderHeaderStr "d") = 19 := by
  refine ⟨by decide, by decide, by decide⟩

/-- C1 (amended): once `limitReached` is set, no further *entries* are
processed at any level — every subsequent entry-loop invocation appends
nothing, changes neither counter nor flag, and preserves the output
accumulated so far; however, folder headers of directories whose recursion
was entered before the flag was set are still appended as the recursion
unwinds (their size was checked before descending). -/
theorem claim_C1 (es : List Entry) (rel : String) (ig : String → Bool) (n : Nat) :
    processEntries es rel ig ⟨n, true⟩ = ([], ⟨n, true⟩) :=
  processEntries_flagged es rel ig n

/-- C2 counterexample: the claim says the locator returns the *topmost*
ancestor containing the marker.  Starting from `/a/b/c` with markers in both
`/a` and `/a/b`, the code returns `/a/b` — the nearest marked ancestor — even
though the strictly higher ancestor `/a` is also marked
(`src/codeclip.js:31` returns on the first hit while walking upward). -/
theorem claim_C2_counterexample :
    isGitRepo c2Probe ["a", "b", "c"] = some ["a", "b"] ∧
    c2Probe ["a"] = Probe.marker ∧
    (["a"] : List String) <+: ["a", "b", "c"] ∧
    (["a"] : List String) ≠ ["a", "b"] := by
  refine ⟨?_, by simp [c2Probe], ⟨["b", "c"], rfl⟩, by simp⟩
  simp [isGitRepo, c2Probe]

/-- C2 (amended): for every starting path, the locator returns the *nearest*
ancestor directory (the start inclusive, the filesystem root exclusive) whose
marker probe succeeds — equivalently, a marked ancestor all of whose strictly
nearer ancestors are unmarked — and reports not-found exactly when no such
ancestor below the root is marked.  Probe errors are treated as
marker-absent and the upward walk continues (`error` behaves like
`noMarker`). -/
theorem claim_C2 (probe : List String → Probe) (p : List String) :
    (∀ q : List String,
        isGitRepo probe p = some q ↔ nearestMarkerSpec probe p q) ∧
    (isGitRepo probe p = none ↔ noMarkerSpec probe p) :=
  ⟨fun q => isGitRepo_char_aux p.length probe p le_rfl q,
    isGitRepo_none_aux p.length probe p le_rfl⟩

/-- C3 counterexample: the claim says `currentSize` never exceeds the 5MB cap
by more than the size of one single validated unit of output.  Here the final
counter is 5242919 = cap + 39, while every unit of this run — the two folder
headers (19 and 21 bytes), the appended file block (23 bytes), and even the
rejected file block (32 bytes) — is smaller than the 39-byte excess: the
overshoot accumulates one folder header per level of the unwinding chain
(`src/codeclip.js:126` checks the header against the counter before the
recursion, `src/codeclip.js:134` adds it after). -/
theorem claim_C3_counterexample :
    processEntries c3Tree "" igNone ⟨5242856, false⟩ =
      ([Item.folderHeader "a", Item.folderHeader "a/b", Item.fileChunk "a/b/f1" "x"],
        ⟨5242919, true⟩) ∧
    MAX_SIZE = 5242880 ∧
    utf8Len (renderItem (Item.folderHeader "a")) = 19 ∧
    utf8Len (renderItem (Item.folderHeader "a/b")) = 21 ∧
    utf8Len (renderItem (Item.fileChunk "a/b/f1" "x")) = 23 ∧
    utf8Len (fileHeaderStr "a/b/f2") + utf8Len "0123456789" = 32 := by
  refine ⟨by decide, by decide, by decide, by decide, by decide, by decide⟩

/-- C3 (amended): during a run the accumulated byte counter never decreases,
and it never exceeds the 5MB cap by more than the total folder-header
overhead of one nested directory chain of the tree (each of those headers was
individually validated against the cap before its subtree was entered);
the one-unit bound of the original claim holds only for file blocks and
binary markers, which are validated at append time. -/
theorem claim_C3 (es : List Entry) (rel : String) (ig : String → Bool) (s : St) :
    s.currentSize ≤ ((processEntries es rel ig s).2).currentSize ∧
    ((processEntries es rel ig s).2).currentSize ≤
      max s.currentSize (MAX_SIZE + listOv es rel) := by
  constructor
  · have h := walkAccounting es rel ig s
    omega
  · exact walkBound es rel ig s

/-- C4: a text-classified readable file whose header-plus-content UTF-8 size
would push the accumulated total over the budget makes the walker set the
limit flag and emit nothing from that file — neither the header nor any part
of the content — leaving the byte counter unchanged
(`src/codeclip.js:166-174`). -/
theorem claim_C4 (name : String) (bytes : List Nat) (content : String)
    (rel : String) (ig : String → Bool) (s : St)
    (hname : (jsStartsWith name "." && name != ".gitignore") = false)
    (hig : ig (childRel rel name) = false)
    (hbin : isBinaryFile bytes (childRel rel name) = false)
    (hhdr : s.currentSize + utf8Len (fileHeaderStr (childRel rel name)) ≤ MAX_SIZE)
    (hover : MAX_SIZE <
      s.currentSize + utf8Len (fileHeaderStr (childRel rel name)) + utf8Len content) :
    processEntry (Entry.file name bytes content true) rel ig s =
      ([], ⟨s.currentSize, true⟩) := by
  have h1 : ¬ s.currentSize + utf8Len (fileHeaderStr (childRel rel name)) > MAX_SIZE := by
    omega
  have h2 : s.currentSize +
      (utf8Len (fileHeaderStr (childRel rel name)) + utf8Len content) > MAX_SIZE := by
    omega
  simp [processEntry, entryName, hname, hig, hbin, h1, h2]

/-- C4 witness: the file `f` (content `hello`) at counter 5242860: the
17-byte header alone still fits, header+content (22 bytes) does not; the
walker emits nothing and only sets the flag. -/
theorem claim_C4_witness :
    (jsStartsWith "f" "." && "f" != ".gitignore") = false ∧
    isBinaryFile [104, 101, 108, 108, 111] (childRel "" "f") = false ∧
    (St.mk 5242860 false).currentSize + utf8Len (fileHeaderStr (childRel "" "f")) ≤
      MAX_SIZE ∧
    MAX_SIZE < (St.mk 5242860 false).currentSize +
      utf8Len (fileHeaderStr (childRel "" "f")) + utf8Len "hello" ∧
    processEntry (Entry.file "f" [104, 101, 108, 108, 111] "hello" true) "" igNone
      ⟨5242860, false⟩ = ([], ⟨5242860, true⟩) :=
  ⟨by decide, by decide, by decide, by decide,
    claim_C4 "f" [104, 101, 108, 108, 111] "hello" "" igNone ⟨5242860, false⟩
      (by decide) rfl (by decide) (by decide) (by decide)⟩

/-- C5: the binary detector (a) classifies every buffer containing a null
byte as binary, (b) classifies every buffer of printable ASCII (bytes
32..126) as text whenever the path's lowercased extension is not in the
denylist, and (c) classifies every path with extension `.png` as binary
regardless of content, the extension check running first
(`src/codeclip.js:40-65`). -/
theorem claim_C5 :
    (∀ (buf : List Nat) (p : String), 0 ∈ buf → isBinaryFile buf p = true) ∧
    (∀ (buf : List Nat) (p : String),
        (∀ b ∈ buf, 32 ≤ b ∧ b ≤ 126) →
        binaryExts.contains (lowerStr (extname p)) = false →
        isBinaryFile buf p = false) ∧
    (∀ (buf : List Nat) (p : String),
        lowerStr (extname p) = ".png" → isBinaryFile buf p = true) := by
  refine ⟨?_, ?_, ?_⟩
  · intro buf p h0
    simp [isBinaryFile]
    exact Or.inr (Or.inl h0)
  · intro buf p hp hext
    have h0 : (0 : Nat) ∉ buf := fun hm => by
      have := (hp 0 hm).1
      omega
    have hfil : (buf.take 8000).filter
        (fun b => decide (b < 32) && !(b == 9) && !(b == 10) && !(b == 13)) = [] := by
      rw [List.filter_eq_nil_iff]
      intro b hb
      have hb2 : b ∈ buf := List.mem_of_mem_take hb
      have hbp := hp b hb2
      simp
      omega
    simp [isBinaryFile, hfil]
    exact ⟨by simpa using hext, h0⟩
  · intro buf p hext
    simp [isBinaryFile, hext]
    exact Or.inl (by decide)

/-- C5 witness: a 10-byte buffer with a null byte is binary; the printable
buffer `Hello` with extension `.txt` is text; the same printable buffer with
extension `.png` is binary. -/
theorem claim_C5_witness :
    isBinaryFile [65, 0, 66, 67, 68, 69, 70, 71, 72, 73] "note.txt" = true ∧
    isBinaryFile [72, 101, 108, 108, 111] "note.txt" = false ∧
    isBinaryFile [72, 101, 108, 108, 111] "img.png" = true :=
  ⟨claim_C5.1 [65, 0, 66, 67, 68, 69, 70, 71, 72, 73] "note.txt" (by decide),
    claim_C5.2.1 [72, 101, 108, 108, 111] "note.txt" (by decide) (by decide),
    claim_C5.2.2 [72, 101, 108, 108, 111] "img.png" (by decide)⟩

/-- C6: with the root-level ignore pattern `build/` loaded, no chunk the
walker ever emits — folder header, file header with content, or binary
marker — belongs to a path under the `build` directory, at any depth. -/
theorem claim_C6 (tree : List Entry) (s : St) (it : Item)
    (hmem : it ∈ (processEntries tree "" buildIgnore s).1) :
    jsStartsWith (itemRel it) "build/" = false := by
  have h := walkEmittedAllowed tree "" buildIgnore s it hmem
  simpa [buildIgnore] using h

/-- C6 witness: on `c6Tree` the walk emits exactly the `a.txt` block —
nothing from under `build/` — and the emitted path is not under `build/`. -/
theorem claim_C6_witness :
    Item.fileChunk "a.txt" "hi" ∈ (processEntries c6Tree "" buildIgnore ⟨0, false⟩).1 ∧
    (processEntries c6Tree "" buildIgnore ⟨0, false⟩).1 =
      [Item.fileChunk "a.txt" "hi"] ∧
    jsStartsWith (itemRel (Item.fileChunk "a.txt" "hi")) "build/" = false :=
  ⟨by decide, by decide, claim_C6 c6Tree ⟨0, false⟩ (Item.fileChunk "a.txt" "hi") (by decide)⟩

/-- C7: for a directory entry that passes the dotfile and ignore filters and
whose folder-header pre-check fits the budget, the folder header is emitted
if and only if the recursive processing of the subtree produced non-empty
output; an after-filtering-empty directory contributes nothing at all
(`src/codeclip.js:131-135`). -/
theorem claim_C7 (name : String) (listable : Bool) (entries : List Entry)
    (rel : String) (ig : String → Bool) (s : St)
    (hname : (jsStartsWith name "." && name != ".gitignore") = false)
    (hig : ig (childRel rel name) = false)
    (hhdr : s.currentSize + jsLength (folderHeaderStr (childRel rel name)) ≤ MAX_SIZE) :
    ((processEntry (Entry.dir name listable entries) rel ig s).1 = [] ↔
      (if listable then processEntries entries (childRel rel name) ig s
        else ([], s)).1 = []) ∧
    (Item.folderHeader (childRel rel name) ∈
        (processEntry (Entry.dir name listable entries) rel ig s).1 ↔
      (if listable then processEntries entries (childRel rel name) ig s
        else ([], s)).1 ≠ []) := by
  have h1 : ¬ s.currentSize + jsLength (folderHeaderStr (childRel rel name)) > MAX_SIZE := by
    omega
  by_cases hemp : (if listable = true then processEntries entries (childRel rel name) ig s
      else ([], s)).1 = []
  · have hr : renderItems (if listable = true then
        processEntries entries (childRel rel name) ig s else ([], s)).1 = "" := by
      rw [hemp]
      rfl
    simp [processEntry, entryName, hname, hig, h1, hr, hemp, renderItems]
  · have hr : ¬ renderItems (if listable = true then
        processEntries entries (childRel rel name) ig s else ([], s)).1 = "" :=
      fun h => hemp ((renderItems_eq_empty_iff _).mp h)
    simp [processEntry, entryName, hname, hig, h1, hr, hemp]

/-- C7 witness: the folder `d` containing one small text file gets its header
(the subtree is non-empty); the instantiated equivalences hold. -/
theorem claim_C7_witness :
    (jsStartsWith "d" "." && "d" != ".gitignore") = false ∧
    (St.mk 0 false).currentSize +
      jsLength (folderHeaderStr (childRel "" "d")) ≤ MAX_SIZE ∧
    (((processEntry (Entry.dir "d" true [Entry.file "f" [104] "h" true]) "" igNone
          ⟨0, false⟩).1 = [] ↔
        (if true then processEntries [Entry.file "f" [104] "h" true]
            (childRel "" "d") igNone ⟨0, false⟩
          else ([], ⟨0, false⟩)).1 = []) ∧
      (Item.folderHeader (childRel "" "d") ∈
          (processEntry (Entry.dir "d" true [Entry.file "f" [104] "h" true]) "" igNone
            ⟨0, false⟩).1 ↔
        (if true then processEntries [Entry.file "f" [104] "h" true]
            (childRel "" "d") igNone ⟨0, false⟩
          else ([], ⟨0, false⟩)).1 ≠ [])) :=
  ⟨by decide, by decide,
    claim_C7 "d" true [Entry.file "f" [104] "h" true] "" igNone ⟨0, false⟩
      (by decide) rfl (by decide)⟩

/-- C8: when no repository was found and the operator's answer differs from a
case-insensitive `y`, the run is cancelled: no traversal output is assembled
and nothing is handed to the clipboard sink — the result is the cancellation
outcome (`src/codeclip.js:190-196`). -/
theorem claim_C8 (answer rootName : String) (tree : List Entry) (ig : String → Bool)
    (h : lowerStr answer ≠ "y") :
    runMain false answer rootName tree ig = RunResult.cancelled := by
  simp [runMain, h]

/-- C8 witness: answering `N` cancels the run. -/
theorem claim_C8_witness :
    lowerStr "N" ≠ "y" ∧ runMain false "N" "proj" [] igNone = RunResult.cancelled :=
  ⟨by decide, claim_C8 "N" "proj" [] igNone (by decide)⟩

/-- C9: at every point of the walk `currentSize` equals its value at entry
plus the exact UTF-8 byte length of the output emitted since (headers, file
contents, binary markers — suppressed appends contribute nothing), and at the
end of a run the counter equals the UTF-8 byte length of the delivered text,
root header included (`src/codeclip.js:202-205`).  The accounting holds for
truncated runs as well, so in particular for untruncated ones. -/
theorem claim_C9 (rootName : String) (tree : List Entry) (ig : String → Bool) :
    (∀ (es : List Entry) (rel : String) (s : St),
        ((processEntries es rel ig s).2).currentSize =
          s.currentSize + utf8Len (renderItems (processEntries es rel ig s).1)) ∧
    ((mainOutput rootName tree ig).2).currentSize =
      utf8Len (mainOutput rootName tree ig).1 := by
  refine ⟨fun es rel s => walkAccounting es rel ig s, ?_⟩
  have h := walkAccounting tree "" ig ⟨utf8Len (rootHeaderStr rootName), false⟩
  simp at h
  simp only [mainOutput, utf8Len_append]
  omega

/-- C10: an empty byte buffer whose lowercased extension is not in the
denylist is classified as text: the sample is empty, so the ratio test (a JS
`0/0 = NaN` compared against 0.3) yields false and the detector returns
text rather than an error or a binary verdict (`src/codeclip.js:57-64`). -/
theorem claim_C10 (p : String)
    (hext : binaryExts.contains (lowerStr (extname p)) = false) :
    isBinaryFile [] p = false := by
  simp [isBinaryFile]
  simpa using hext

/-- C10 witness: the empty buffer with extension `.txt` is text. -/
theorem claim_C10_witness :
    binaryExts.contains (lowerStr (extname "a.txt")) = false ∧
    isBinaryFile [] "a.txt" = false :=
  ⟨by decide, claim_C10 "a.txt" (by decide)⟩
